import Mathlib

/-!
# Verification of the A3C training core (`src/a3c.py`)

A shallow embedding of the asynchronous actor-critic training core:

* the per-worker loss computation `ActorCriticWorker.optimize_model`
  (lines 220-265), embedded over forward-mode dual numbers so that both the
  value of each loss and its behaviour under differentiation (in particular
  the effect of `gae.detach()`) are represented;
* the Python buffer dictionary and its `dict.fromkeys` reset (lines 209,
  292-296, 304-309), embedded with an explicit heap so that list-object
  aliasing is observable;
* the buffer-length bookkeeping of the training loop (lines 292-309);
* the exploration schedule (lines 212-217, 284-286);
* the periodic checkpoint write (lines 317-321);
* the shared Adam optimizer `SharedAdam` (lines 94-166), embedded over `ℝ`
  (tensors become lists of reals, `sqrt` becomes `Real.sqrt`).

Numeric torch scalars are modelled as exact rationals (for the loss loop,
where no irrational operation occurs) or reals (for the optimizer, whose
update uses square roots); configuration constants from `config_a3c`
(`DISCOUNT`, `ENTROPY_COEFF`, `VALUE_LOSS_COEFF`, `BUFFER_UPDATE_FREQ`,
`INITIAL_EXPLORATION`, `FINAL_EXPLORATION`, `FINAL_EXPLORATION_FRAME`,
`SAVE_NETWORK_FREQ`, `EXPERIMENT_NAME`, learning-rate and betas) are
parameters of the corresponding definitions.
-/

namespace A3C

/-! ## Forward-mode scalars

A torch scalar that participates in autograd is modelled as a dual number
`⟨val, der⟩`: `val` is the value, `der` the derivative along one fixed
direction of the underlying network parameters.  `detach` (torch's
`Tensor.detach`) keeps the value and severs the derivative. -/

structure Dual where
  val : ℚ
  der : ℚ
deriving DecidableEq, Repr

theorem Dual.eq_of_val_der {a b : Dual} (h1 : a.val = b.val) (h2 : a.der = b.der) : a = b := by
  cases a; cases b; cases h1; cases h2; rfl

instance : Zero Dual := ⟨⟨0, 0⟩⟩
instance : Add Dual := ⟨fun a b => ⟨a.val + b.val, a.der + b.der⟩⟩
instance : Neg Dual := ⟨fun a => ⟨-a.val, -a.der⟩⟩
instance : Sub Dual := ⟨fun a b => ⟨a.val - b.val, a.der - b.der⟩⟩
instance : Mul Dual := ⟨fun a b => ⟨a.val * b.val, a.val * b.der + a.der * b.val⟩⟩

/-- A constant scalar (a Python float literal or configuration constant):
its derivative with respect to the network parameters is zero. -/
def Dual.const (q : ℚ) : Dual := ⟨q, 0⟩

/-- `Tensor.detach`: same value, derivative severed. -/
def Dual.detach (a : Dual) : Dual := ⟨a.val, 0⟩

@[simp] theorem Dual.zero_val : (0 : Dual).val = 0 := rfl
@[simp] theorem Dual.zero_der : (0 : Dual).der = 0 := rfl
@[simp] theorem Dual.add_val (a b : Dual) : (a + b).val = a.val + b.val := rfl
@[simp] theorem Dual.add_der (a b : Dual) : (a + b).der = a.der + b.der := rfl
@[simp] theorem Dual.sub_val (a b : Dual) : (a - b).val = a.val - b.val := rfl
@[simp] theorem Dual.sub_der (a b : Dual) : (a - b).der = a.der - b.der := rfl
@[simp] theorem Dual.mul_val (a b : Dual) : (a * b).val = a.val * b.val := rfl
@[simp] theorem Dual.mul_der (a b : Dual) : (a * b).der = a.val * b.der + a.der * b.val := rfl
@[simp] theorem Dual.const_val (q : ℚ) : (Dual.const q).val = q := rfl
@[simp] theorem Dual.const_der (q : ℚ) : (Dual.const q).der = 0 := rfl
@[simp] theorem Dual.detach_val (a : Dual) : a.detach.val = a.val := rfl
@[simp] theorem Dual.detach_der (a : Dual) : a.detach.der = 0 := rfl

/-! ## The worker's loss computation (`optimize_model`, lines 220-265)

The buffer holds one experience sequence per key; `optimize_model` receives
it together with `buffer_length` and the terminal flag.  The bootstrap
forward pass (line 236) is external to the embedded fragment: its value
output is the parameter `vNext`. -/

/-- The four experience sequences of `self.buffer` as read by
`optimize_model`, one list per key, in the buffer's key order
`value, action_prob, reward, entropy` (line 209). -/
structure BufferData where
  value : List Dual
  action_prob : List Dual
  reward : List Dual
  entropy : List Dual
deriving DecidableEq

/-- The accumulators threaded through the reverse loop of
`optimize_model` (line 240: `loss_value, loss_policy, gae = 0, 0, 0`). -/
structure LoopState where
  loss_value : Dual
  loss_policy : Dual
  gae : Dual
deriving DecidableEq

/-- One iteration of the reverse loop of `optimize_model`
(lines 241-249), at buffer index `i`.  `values` is
`self.buffer['value']` *after* the bootstrap append of line 237, the other
three sequences are read from `buf`.  Out-of-range indices default to `0`
(the embedded fragment is used at indices below `buffer_length`, where the
source lists are defined).

```python
value_target = cfg.DISCOUNT * value_1 + self.buffer['reward'][i]
advantage = value_1 - self.buffer['value'][i]
loss_value += advantage ** 2
delta_t = self.buffer['reward'][i] + cfg.DISCOUNT*self.buffer['value'][i+1] - self.buffer['value'][i]
gae = gae * cfg.DISCOUNT + delta_t
loss_policy -= self.buffer['action_prob'][i] * gae.detach() - cfg.ENTROPY_COEFF * self.buffer['entropy'][i]
```

Note that `value_target` is computed by the source and never used. -/
def loopBody (discount entropy_coeff : ℚ) (value_1 : Dual) (buf : BufferData)
    (values : List Dual) (i : ℕ) (st : LoopState) : LoopState :=
  let value_target := Dual.const discount * value_1 + buf.reward.getD i 0
  let advantage := value_1 - values.getD i 0
  let loss_value := st.loss_value + advantage * advantage
  let delta_t := buf.reward.getD i 0 + Dual.const discount * values.getD (i + 1) 0
      - values.getD i 0
  let gae := st.gae * Dual.const discount + delta_t
  let loss_policy := st.loss_policy
      - (buf.action_prob.getD i 0 * gae.detach - Dual.const entropy_coeff * buf.entropy.getD i 0)
  let _ := value_target
  ⟨loss_value, loss_policy, gae⟩

/-- `for i in reversed(range(c))` around `loopBody` (line 241): index
`c - 1` is processed first, index `0` last. -/
def lossLoop (discount entropy_coeff : ℚ) (value_1 : Dual) (buf : BufferData)
    (values : List Dual) : ℕ → LoopState → LoopState
  | 0, st => st
  | c + 1, st =>
      lossLoop discount entropy_coeff value_1 buf values c
        (loopBody discount entropy_coeff value_1 buf values c st)

/-- `ActorCriticWorker.optimize_model` (lines 220-252), up to the loss:

* bootstrap value `value_1` — `0` if `done`, else the value head of one
  extra forward pass (parameter `vNext`) (lines 231-236);
* bootstrap appended to `self.buffer['value']` (line 237);
* reverse loop over `range(buffer_length)` (lines 240-249);
* `loss = loss_policy + cfg.VALUE_LOSS_COEFF * loss_value` (line 252).

Returns the total loss together with the final accumulator state. -/
def optimize_model (discount entropy_coeff value_loss_coeff : ℚ) (done : Bool)
    (vNext : Dual) (buf : BufferData) (buffer_length : ℕ) : Dual × LoopState :=
  let value_1 : Dual := if done then 0 else vNext
  let values := buf.value ++ [value_1]
  let st := lossLoop discount entropy_coeff value_1 buf values buffer_length ⟨0, 0, 0⟩
  (st.loss_policy + Dual.const value_loss_coeff * st.loss_value, st)

/-! ## Claim-side formulations for the loss computation -/

/-- The temporal-difference residual of the claim:
`delta_i = reward_i + discount * value_{i+1} - value_i`, read over the
value sequence with the bootstrap appended. -/
def deltaAt (discount : ℚ) (rewards values : List Dual) (i : ℕ) : Dual :=
  rewards.getD i 0 + Dual.const discount * values.getD (i + 1) 0 - values.getD i 0

/-- The generalized-advantage accumulator as the claim describes it, as a
function of the buffer index: starting from `0` above the last index
`n - 1`, `gaeSpec i = gaeSpec (i+1) * discount + delta_i`. -/
def gaeSpec (discount : ℚ) (rewards values : List Dual) (n : ℕ) (i : ℕ) : Dual :=
  if _h : i < n then
    gaeSpec discount rewards values n (i + 1) * Dual.const discount
      + deltaAt discount rewards values i
  else 0
termination_by n - i
decreasing_by omega

/-- The policy loss as the claim describes it: the sum over the indices
below `c` of `entropy_coeff * entropy_i - log_prob_i * gae_i` with the
accumulator `gae_i` of `gaeSpec` *detached* (only its value enters, its
derivative is severed). -/
def pSumBelow (discount entropy_coeff : ℚ) (probs ents rewards values : List Dual)
    (n : ℕ) : ℕ → Dual
  | 0 => 0
  | c + 1 =>
      pSumBelow discount entropy_coeff probs ents rewards values n c
        + (Dual.const entropy_coeff * ents.getD c 0
            - probs.getD c 0 * (gaeSpec discount rewards values n c).detach)

/-- The value loss actually computed by the source: the sum over the
indices below `c` of `(value_1 - value_i)^2`, with the bootstrap `value_1`
fixed throughout the loop. -/
def vSumBelow (value_1 : Dual) (values : List Dual) : ℕ → Dual
  | 0 => 0
  | c + 1 =>
      vSumBelow value_1 values c
        + (value_1 - values.getD c 0) * (value_1 - values.getD c 0)

theorem LoopState.eq_of_fields {a b : LoopState} (h1 : a.loss_value = b.loss_value)
    (h2 : a.loss_policy = b.loss_policy) (h3 : a.gae = b.gae) : a = b := by
  cases a; cases b; cases h1; cases h2; cases h3; rfl

/-- The reverse loop of `optimize_model` computes, componentwise, the
claim-side sums: threading the three accumulators through the loop from
index `c - 1` down to `0` adds `vSumBelow c` to the value loss and
`pSumBelow c` to the policy loss, and leaves the accumulator at
`gaeSpec 0`, provided the incoming accumulator agrees with `gaeSpec c`. -/
theorem lossLoop_eq (d ec : ℚ) (v1 : Dual) (buf : BufferData) (values : List Dual)
    (n : ℕ) : ∀ c st, c ≤ n → st.gae = gaeSpec d buf.reward values n c →
    lossLoop d ec v1 buf values c st =
      ⟨st.loss_value + vSumBelow v1 values c,
       st.loss_policy + pSumBelow d ec buf.action_prob buf.entropy buf.reward values n c,
       gaeSpec d buf.reward values n 0⟩ := by
  intro c
  induction c with
  | zero =>
      intro st _ hg
      show st = _
      refine LoopState.eq_of_fields ?_ ?_ ?_
      · exact Dual.eq_of_val_der (by simp [vSumBelow]) (by simp [vSumBelow])
      · exact Dual.eq_of_val_der (by simp [pSumBelow]) (by simp [pSumBelow])
      · simpa using hg
  | succ c ih =>
      intro st hc hg
      have hcn : c < n := hc
      have hbody : (loopBody d ec v1 buf values c st).gae
          = gaeSpec d buf.reward values n c := by
        rw [gaeSpec]
        simp only [hcn, dif_pos]
        simp [loopBody, hg, deltaAt]
      have hgc : gaeSpec d buf.reward values n c
          = st.gae * Dual.const d + deltaAt d buf.reward values c := by
        rw [← hbody]; simp [loopBody, deltaAt]
      have hres := ih (loopBody d ec v1 buf values c st) (Nat.le_of_lt hcn) hbody
      show lossLoop d ec v1 buf values c (loopBody d ec v1 buf values c st) = _
      rw [hres]
      refine LoopState.eq_of_fields ?_ ?_ rfl
      · refine Dual.eq_of_val_der ?_ ?_ <;>
          simp [loopBody, vSumBelow] <;> ring
      · refine Dual.eq_of_val_der ?_ ?_ <;>
          simp [loopBody, pSumBelow, hgc, deltaAt] <;> ring

/-- **C4** (confirmed): in `optimize_model` the bootstrap value is `0` when
the episode terminated and the extra forward pass's value `vNext`
otherwise; it is appended to the value sequence; iterating the buffer in
reverse, the policy loss equals the accumulation of
`-(log_prob_i * gae_i - entropy_coeff * entropy_i)` where `gae_i` obeys
`gae_i = gae_{i+1} * discount + delta_i`,
`delta_i = reward_i + discount * value_{i+1} - value_i`, and enters the
policy loss detached (derivative severed). -/
theorem optimize_model_policy_loss (discount entropy_coeff value_loss_coeff : ℚ)
    (done : Bool) (vNext : Dual) (buf : BufferData) (n : ℕ)
    (_hv : buf.value.length = n) (_hp : buf.action_prob.length = n)
    (_hr : buf.reward.length = n) (_he : buf.entropy.length = n) :
    (optimize_model discount entropy_coeff value_loss_coeff done vNext buf n).2.loss_policy
      = pSumBelow discount entropy_coeff buf.action_prob buf.entropy buf.reward
          (buf.value ++ [if done then 0 else vNext]) n n := by
  have h0 : ((⟨0, 0, 0⟩ : LoopState)).gae
      = gaeSpec discount buf.reward (buf.value ++ [if done then 0 else vNext]) n n := by
    rw [gaeSpec]
    simp
  have := lossLoop_eq discount entropy_coeff (if done then 0 else vNext) buf
    (buf.value ++ [if done then 0 else vNext]) n n ⟨0, 0, 0⟩ (Nat.le_refl n) h0
  simp only [optimize_model]
  rw [this]
  refine Dual.eq_of_val_der ?_ ?_ <;> simp

/-- Witness for `optimize_model_policy_loss` at a concrete buffer of
length 1 (`done = false`, bootstrap from the forward pass). -/
theorem optimize_model_policy_loss_witness :
    (optimize_model (99/100) (1/100) (1/2) false ⟨5, 1⟩
        ⟨[⟨1, 0⟩], [⟨2, 1⟩], [⟨3, 0⟩], [⟨4, 1⟩]⟩ 1).2.loss_policy
      = pSumBelow (99/100) (1/100) [⟨2, 1⟩] [⟨4, 1⟩] [⟨3, 0⟩]
          ([⟨1, 0⟩] ++ [if false then 0 else (⟨5, 1⟩ : Dual)]) 1 1 :=
  optimize_model_policy_loss (99/100) (1/100) (1/2) false ⟨5, 1⟩
    ⟨[⟨1, 0⟩], [⟨2, 1⟩], [⟨3, 0⟩], [⟨4, 1⟩]⟩ 1 rfl rfl rfl rfl

/-- **C9** (confirmed): the policy loss and the value loss computed by
`optimize_model` are deterministic functions of the buffered sequences,
the terminal flag, the bootstrap value and the three coefficients: two
runs on identical inputs produce identical losses. -/
theorem optimize_model_deterministic (d d' ec ec' vc vc' : ℚ) (done done' : Bool)
    (vN vN' : Dual) (buf buf' : BufferData) (n n' : ℕ)
    (h1 : d = d') (h2 : ec = ec') (h3 : vc = vc') (h4 : done = done')
    (h5 : vN = vN') (h6 : buf = buf') (h7 : n = n') :
    ((optimize_model d ec vc done vN buf n).2.loss_policy,
     (optimize_model d ec vc done vN buf n).2.loss_value)
      = ((optimize_model d' ec' vc' done' vN' buf' n').2.loss_policy,
         (optimize_model d' ec' vc' done' vN' buf' n').2.loss_value) := by
  subst h1; subst h2; subst h3; subst h4; subst h5; subst h6; subst h7; rfl

/-- Witness for `optimize_model_deterministic` at a concrete input. -/
theorem optimize_model_deterministic_witness :
    ((optimize_model (99/100) (1/100) (1/2) true ⟨5, 1⟩
        ⟨[⟨1, 0⟩], [⟨2, 1⟩], [⟨3, 0⟩], [⟨4, 1⟩]⟩ 1).2.loss_policy,
      (optimize_model (99/100) (1/100) (1/2) true ⟨5, 1⟩
        ⟨[⟨1, 0⟩], [⟨2, 1⟩], [⟨3, 0⟩], [⟨4, 1⟩]⟩ 1).2.loss_value)
      = ((optimize_model (99/100) (1/100) (1/2) true ⟨5, 1⟩
          ⟨[⟨1, 0⟩], [⟨2, 1⟩], [⟨3, 0⟩], [⟨4, 1⟩]⟩ 1).2.loss_policy,
         (optimize_model (99/100) (1/100) (1/2) true ⟨5, 1⟩
          ⟨[⟨1, 0⟩], [⟨2, 1⟩], [⟨3, 0⟩], [⟨4, 1⟩]⟩ 1).2.loss_value) :=
  optimize_model_deterministic (99/100) (99/100) (1/100) (1/100) (1/2) (1/2)
    true true ⟨5, 1⟩ ⟨5, 1⟩ ⟨[⟨1, 0⟩], [⟨2, 1⟩], [⟨3, 0⟩], [⟨4, 1⟩]⟩
    ⟨[⟨1, 0⟩], [⟨2, 1⟩], [⟨3, 0⟩], [⟨4, 1⟩]⟩ 1 1
    rfl rfl rfl rfl rfl rfl rfl

/-- The value loss as claim C2 states it (and as `src/a2c.py` lines
176-189 compute it): a running discounted value target `R`, starting at
the bootstrap, is updated to `discount * R + reward_i` at each index in
reverse order, and the loss accumulates `(R - value_i)^2`.  The pair
carries `(R, accumulated loss)`. -/
def claimValueLoss (discount : ℚ) (rewards values : List Dual) : ℕ → Dual × Dual → Dual × Dual
  | 0, p => p
  | c + 1, p =>
      let R := Dual.const discount * p.1 + rewards.getD c 0
      claimValueLoss discount rewards values c
        (R, p.2 + (R - values.getD c 0) * (R - values.getD c 0))

/-- **C2** (code bug): on the terminal one-step buffer with reward `1`,
stored value `0` and discount `99/100`, the source's value loss is `0`
(line 244 subtracts from the never-updated bootstrap `value_1`, and the
`value_target` of line 243 is never used), while the claimed
discounted-target loss is `1`. -/
theorem optimize_model_value_loss_bug :
    (optimize_model (99/100) 0 1 true 0 ⟨[0], [0], [Dual.const 1], [0]⟩ 1).2.loss_value = 0
      ∧ (claimValueLoss (99/100) [Dual.const 1] [0] 1 (0, 0)).2 = Dual.const 1
      ∧ (0 : Dual) ≠ Dual.const 1 := by
  refine ⟨?_, ?_, by decide⟩
  · refine Dual.eq_of_val_der ?_ ?_ <;>
      simp [optimize_model, lossLoop, loopBody]
  · refine Dual.eq_of_val_der ?_ ?_ <;>
      simp [claimValueLoss, Dual.const]

/-! ## The buffer dictionary and its aliasing (`train`, lines 209, 292-296,
307-309)

Python dictionaries map keys to *references* to list objects; lists are
mutated in place by `append`.  The embedding makes the reference structure
explicit: a heap of list objects addressed by allocation index, and a
dictionary mapping each buffer key to an address.

* `{k: [] for k in [...]}` (line 209) evaluates `[]` once *per key*:
  four distinct empty lists are allocated.
* `dict.fromkeys(self.buffer, [])` (line 308) evaluates `[]` *once*:
  a single empty list is allocated and every key is bound to it.
* `self.buffer[k].append(x)` (lines 237, 292-295) mutates the list object
  that `k` refers to, and rebinds nothing. -/

/-- The four keys of `self.buffer` (line 209). -/
inductive BKey
  | value
  | action_prob
  | reward
  | entropy
deriving DecidableEq, Fintype

/-- The buffer dictionary together with the heap of list objects it can
refer to: `heap` holds the allocated list objects in allocation order,
`dict` maps each key to the address of the list it is bound to. -/
structure PyBuffer (α : Type) where
  heap : List (List α)
  dict : BKey → ℕ

/-- `self.buffer = {k: [] for k in ['value', 'action_prob', 'reward',
'entropy']}` (line 209): four fresh empty lists, one per key. -/
def initBuffer (α : Type) : PyBuffer α :=
  ⟨[[], [], [], []], fun k =>
    match k with
    | .value => 0
    | .action_prob => 1
    | .reward => 2
    | .entropy => 3⟩

/-- `self.buffer = dict.fromkeys(self.buffer, [])` (line 308): one fresh
empty list, every key bound to it. -/
def resetBuffer {α : Type} (s : PyBuffer α) : PyBuffer α :=
  ⟨s.heap ++ [[]], fun _ => s.heap.length⟩

/-- `self.buffer[k].append(x)` (lines 237, 292-295): the list object at
the address `k` refers to grows by `x`; the dictionary is unchanged. -/
def appendBuffer {α : Type} (s : PyBuffer α) (k : BKey) (x : α) : PyBuffer α :=
  ⟨s.heap.set (s.dict k) (s.heap.getD (s.dict k) [] ++ [x]), s.dict⟩

/-- The sequence a key currently holds (`self.buffer[k]`). -/
def readBuffer {α : Type} (s : PyBuffer α) (k : BKey) : List α :=
  s.heap.getD (s.dict k) []

/-- The operations `train` performs on the buffer after a flush: appends
(four per collection step, one more in `optimize_model`) and further
`dict.fromkeys` resets at later flushes. -/
inductive BufOp (α : Type)
  | append (k : BKey) (x : α)
  | reset

/-- Interpretation of one buffer operation. -/
def applyBufOp {α : Type} (s : PyBuffer α) : BufOp α → PyBuffer α
  | .append k x => appendBuffer s k x
  | .reset => resetBuffer s

/-- Interpretation of a sequence of buffer operations, oldest first. -/
def runBufOps {α : Type} (s : PyBuffer α) : List (BufOp α) → PyBuffer α
  | [] => s
  | op :: ops => runBufOps (applyBufOp s op) ops

/-- All four keys refer to one and the same list object. -/
def Aliased {α : Type} (s : PyBuffer α) : Prop :=
  ∀ k k' : BKey, s.dict k = s.dict k'

instance {α : Type} (s : PyBuffer α) : Decidable (Aliased s) := by
  unfold Aliased; infer_instance

/-- **C3** (confirmed): before the first flush the four keys hold four
distinct lists, but `dict.fromkeys(self.buffer, [])` binds all four keys
to a single fresh list object; every later operation — appends from
collection steps and `optimize_model`, and further flush resets —
preserves that aliasing, and under it an `append` through any key is
observed by every key.  So from the first flush on, the four keys never
again hold four separate per-kind sequences. -/
theorem buffer_fromkeys_aliasing {α : Type} (s₀ s : PyBuffer α)
    (ops : List (BufOp α)) (k k' : BKey) (x : α) (h : Aliased s)
    (hwf : s.dict k < s.heap.length) :
    ¬ Aliased (initBuffer α)
      ∧ Aliased (runBufOps (resetBuffer s₀) ops)
      ∧ readBuffer (appendBuffer s k x) k' = readBuffer s k' ++ [x] := by
  refine ⟨?_, ?_, ?_⟩
  · intro hini
    have h02 := hini BKey.value BKey.reward
    simp [initBuffer] at h02
  · have hstep : ∀ (t : PyBuffer α) (op : BufOp α),
        Aliased t → Aliased (applyBufOp t op) := by
      intro t op ht
      cases op with
      | append k x => exact ht
      | reset => intro _ _; rfl
    have hrun : ∀ (l : List (BufOp α)) (t : PyBuffer α),
        Aliased t → Aliased (runBufOps t l) := by
      intro l
      induction l with
      | nil => intro t ht; exact ht
      | cons op ops ih => intro t ht; exact ih _ (hstep t op ht)
    exact hrun ops _ (fun _ _ => rfl)
  · have hk : s.dict k = s.dict k' := h k k'
    unfold readBuffer appendBuffer
    rw [hk]
    rw [hk] at hwf
    simp [List.getD, List.getElem?_set_self', List.getElem?_eq_getElem hwf]

/-- Witness for `buffer_fromkeys_aliasing`: one flush, then a collection
step's appends through different keys land in the one shared list. -/
theorem buffer_fromkeys_aliasing_witness :
    ¬ Aliased (initBuffer ℕ)
      ∧ Aliased (runBufOps (resetBuffer (initBuffer ℕ))
          [BufOp.append BKey.value 7, BufOp.append BKey.reward 9])
      ∧ readBuffer
          (appendBuffer (resetBuffer (initBuffer ℕ)) BKey.value 7) BKey.reward
        = readBuffer (resetBuffer (initBuffer ℕ)) BKey.reward ++ [7] :=
  buffer_fromkeys_aliasing (initBuffer ℕ) (resetBuffer (initBuffer ℕ))
    [BufOp.append BKey.value 7, BufOp.append BKey.reward 9]
    BKey.value BKey.reward 7 (fun _ _ => rfl) (by decide)

/-! ## Buffer length bookkeeping of the training loop (lines 292-309)

Per collection step the worker appends one experience and increments
`self.buffer_length` (line 296); it then flushes — optimizes, clears the
buffer and zeroes the counter (lines 304-309) — when
`self.buffer_length % cfg.BUFFER_UPDATE_FREQ == 0` or the environment
reported termination. -/

/-- The buffer-length counter after one collection step that started with
counter `b` and observed terminal flag `done`, for flush threshold
`freq = cfg.BUFFER_UPDATE_FREQ`. -/
def collectLen (freq : ℕ) (b : ℕ) (done : Bool) : ℕ :=
  let b' := b + 1
  if b' % freq = 0 ∨ done then 0 else b'

/-- The buffer-length counter at the start of each collection step, for a
run that starts with counter `b` and observes the terminal flags `dones`
(one per step). -/
def bufferLenTrace (freq : ℕ) : List Bool → ℕ → List ℕ
  | [], b => [b]
  | d :: ds, b => b :: bufferLenTrace freq ds (collectLen freq b d)

/-- **C5** (confirmed): for every sequence of terminal flags, the
buffer-length counter at the start of every collection step stays at most
the flush threshold (indeed strictly below it), and a step flushes (taking
the counter to `0`) exactly when the incremented counter reaches the
threshold or the step was terminal. -/
theorem buffer_length_bounded (freq : ℕ) (dones : List Bool) (b x : ℕ)
    (done : Bool) (hf : 0 < freq) (hb : b < freq)
    (hx : x ∈ bufferLenTrace freq dones b) :
    x ≤ freq ∧ (collectLen freq x done = 0 ↔ (x + 1 = freq ∨ done = true)) := by
  have hinv : ∀ (ds : List Bool) (b₀ : ℕ), b₀ < freq →
      ∀ y ∈ bufferLenTrace freq ds b₀, y < freq := by
    intro ds
    induction ds with
    | nil =>
        intro b₀ hb₀ y hy
        simp [bufferLenTrace] at hy
        omega
    | cons d ds ih =>
        intro b₀ hb₀ y hy
        simp only [bufferLenTrace, List.mem_cons] at hy
        rcases hy with rfl | hy
        · exact hb₀
        · refine ih (collectLen freq b₀ d) ?_ y hy
          simp only [collectLen]
          split
          · exact hf
          · rename_i hcond
            rcases Nat.lt_or_ge (b₀ + 1) freq with h1 | h1
            · exact h1
            · exfalso
              have hbf : b₀ + 1 = freq := by omega
              exact hcond (Or.inl (by rw [hbf, Nat.mod_self]))
  have hxf : x < freq := hinv dones b hb x hx
  refine ⟨Nat.le_of_lt hxf, ?_⟩
  simp only [collectLen]
  split
  · rename_i hcond
    simp only [eq_self_iff_true, true_iff]
    rcases hcond with hm | hd
    · by_cases hxf1 : x + 1 = freq
      · exact Or.inl hxf1
      · exfalso
        have hlt1 : x + 1 < freq := by omega
        rw [Nat.mod_eq_of_lt hlt1] at hm
        omega
    · exact Or.inr hd
  · rename_i hcond
    constructor
    · intro h0
      omega
    · rintro (hm | hd)
      · exact absurd (Or.inl (by rw [hm]; exact Nat.mod_self freq)) hcond
      · exact absurd (Or.inr hd) hcond

/-- Witness for `buffer_length_bounded`: threshold 5, an early terminal
flush at step 3, counter 2 observed at a step start. -/
theorem buffer_length_bounded_witness :
    (2 : ℕ) ≤ 5 ∧ (collectLen 5 2 false = 0 ↔ ((2 : ℕ) + 1 = 5 ∨ false = true)) :=
  buffer_length_bounded 5 [false, false, true] 0 2 false (by decide) (by decide)
    (by decide)

/-! ## Exploration schedule (lines 212-217, 284-286) -/

/-- `np.linspace(a, b, n)[i]`: `n` evenly spaced points from `a` to `b`
inclusive; entry `i` is `a + (b - a) * i / (n - 1)` (exact arithmetic).
This models the schedule array built at line 213 with
`a = cfg.INITIAL_EXPLORATION`, `b = cfg.FINAL_EXPLORATION`,
`n = cfg.FINAL_EXPLORATION_FRAME`. -/
def linspace (a b : ℚ) (n : ℕ) (i : ℕ) : ℚ :=
  a + (b - a) * i / ((n : ℚ) - 1)

/-- The schedule lookup of line 285,
`self.epsilon[min(i, cfg.FINAL_EXPLORATION_FRAME - 1)]`: the linearly
annealed value with the index clamped to the last schedule entry. -/
def epsilonAt (a b : ℚ) (n : ℕ) (i : ℕ) : ℚ :=
  linspace a b n (min i (n - 1))

/-- **C6** (confirmed): for a schedule with at least two entries annealing
downward (`b ≤ a`), `epsilon(0)` is the initial exploration value,
`epsilon(i)` equals the final exploration value for every `i` from the
horizon `n - 1` on (the lookup is clamped to the last entry), and the
schedule is non-increasing. -/
theorem epsilon_schedule (a b : ℚ) (n : ℕ) (hn : 2 ≤ n) (hba : b ≤ a) :
    epsilonAt a b n 0 = a
      ∧ (∀ i, n - 1 ≤ i → epsilonAt a b n i = b)
      ∧ (∀ i j, i ≤ j → epsilonAt a b n j ≤ epsilonAt a b n i) := by
  have hc : (0 : ℚ) < (n : ℚ) - 1 := by
    have h2 : (2 : ℚ) ≤ (n : ℚ) := by exact_mod_cast hn
    linarith
  refine ⟨?_, ?_, ?_⟩
  · simp [epsilonAt, linspace]
  · intro i hi
    unfold epsilonAt linspace
    rw [Nat.min_eq_right hi]
    have hcast : ((n - 1 : ℕ) : ℚ) = (n : ℚ) - 1 := by
      have h1 : 1 ≤ n := by omega
      push_cast [h1]
      ring
    rw [hcast, mul_div_assoc, div_self (ne_of_gt hc)]
    ring
  · intro i j hij
    unfold epsilonAt linspace
    have hminN : min i (n - 1) ≤ min j (n - 1) := min_le_min hij (le_refl _)
    have hmin : ((min i (n - 1) : ℕ) : ℚ) ≤ ((min j (n - 1) : ℕ) : ℚ) :=
      Nat.cast_le.mpr hminN
    have hnum : (b - a) * ((min j (n - 1) : ℕ) : ℚ)
        ≤ (b - a) * ((min i (n - 1) : ℕ) : ℚ) :=
      mul_le_mul_of_nonpos_left hmin (by linarith)
    have hdiv := (div_le_div_iff_of_pos_right hc).mpr hnum
    linarith

/-- Witness for `epsilon_schedule`: 11 entries from 1 down to 1/10;
the schedule starts at 1, is constant 1/10 from index 10 on, and entry 7
is at most entry 3. -/
theorem epsilon_schedule_witness :
    epsilonAt 1 (1/10) 11 0 = 1
      ∧ epsilonAt 1 (1/10) 11 20 = 1/10
      ∧ epsilonAt 1 (1/10) 11 7 ≤ epsilonAt 1 (1/10) 11 3 :=
  ⟨(epsilon_schedule 1 (1/10) 11 (by norm_num) (by norm_num)).1,
   (epsilon_schedule 1 (1/10) 11 (by norm_num) (by norm_num)).2.1 20 (by norm_num),
   (epsilon_schedule 1 (1/10) 11 (by norm_num) (by norm_num)).2.2 3 7 (by norm_num)⟩

/-! ## Periodic checkpoint write (lines 281, 317-321) -/

/-- Python's `str.zfill(w)` on a (sign-free) numeral string: left-pad
with `'0'` to width `w`. -/
def zfill (w : ℕ) (s : String) : String :=
  if s.length < w then String.mk (List.replicate (w - s.length) '0') ++ s else s

/-- The checkpoint path of line 321:
`f'{cfg.EXPERIMENT_NAME}/{str(i).zfill(7)}.pt'`. -/
def checkpointPath (expName : String) (i : ℕ) : String :=
  expName ++ "/" ++ zfill 7 (toString i) ++ ".pt"

/-- The checkpoint writes performed by the training loop
`for i in range(1, N)` (line 281) through lines 317-321: at each iteration
`i` with `i % cfg.SAVE_NETWORK_FREQ == 0` the shared network's parameter
snapshot is serialized to `checkpointPath`.  The trace lists the
(iteration, path) pairs of the writes, in order. -/
def saveEvents (expName : String) (freq N : ℕ) : List (ℕ × String) :=
  (List.range' 1 (N - 1)).filterMap
    (fun i => if i % freq = 0 then some (i, checkpointPath expName i) else none)

/-- **C8** (confirmed): a checkpoint write happens at iteration `i` with
path `p` exactly when `i` is a loop iteration (`1 ≤ i < N`) at a multiple
of the configured interval and `p` is the path keyed by the experiment
name and the zero-padded iteration index; the padded index always has at
least 7 characters. -/
theorem checkpoint_schedule (expName : String) (freq N i : ℕ) (p : String)
    (_hf : 0 < freq) :
    ((i, p) ∈ saveEvents expName freq N
        ↔ (1 ≤ i ∧ i < N ∧ freq ∣ i ∧ p = checkpointPath expName i))
      ∧ 7 ≤ (zfill 7 (toString i)).length := by
  constructor
  · simp only [saveEvents, List.mem_filterMap, List.mem_range'_1,
      Option.ite_none_right_eq_some, Option.some.injEq, Prod.mk.injEq]
    constructor
    · rintro ⟨a, ⟨h1, h2⟩, hm, rfl, rfl⟩
      exact ⟨h1, by omega, Nat.dvd_of_mod_eq_zero hm, rfl⟩
    · rintro ⟨h1, h2, hdvd, rfl⟩
      refine ⟨i, ⟨h1, by omega⟩, ?_, rfl, rfl⟩
      obtain ⟨c, rfl⟩ := hdvd
      exact Nat.mul_mod_right freq c
  · unfold zfill
    split
    · rename_i hlen
      rw [String.length_append]
      have hrep : (String.mk (List.replicate (7 - (toString i).length) '0')).length
          = 7 - (toString i).length := List.length_replicate _ _
      omega
    · rename_i hlen
      omega

/-- Witness for `checkpoint_schedule`: interval 3, budget 10, iteration 6. -/
theorem checkpoint_schedule_witness :
    ((6, checkpointPath "flappy" 6) ∈ saveEvents "flappy" 3 10
        ↔ (1 ≤ 6 ∧ 6 < 10 ∧ 3 ∣ 6
            ∧ checkpointPath "flappy" 6 = checkpointPath "flappy" 6))
      ∧ 7 ≤ (zfill 7 (toString 6)).length :=
  checkpoint_schedule "flappy" 3 10 6 (checkpointPath "flappy" 6) (by decide)

/-! ## The shared Adam optimizer (`SharedAdam`, lines 94-166)

A torch tensor is modelled as its flat list of real entries; the in-place
tensor operations of `SharedAdam.step` become elementwise operations.
The optimizer's state is a list of per-parameter slots in parameter
order; `self.state[p]` holds, *per parameter tensor*, a `step` counter
and the two moment tensors (lines 108-113). -/

/-- A torch tensor: its flat list of real entries. -/
abbrev Tensor := List ℝ

/-- `c * t` (elementwise scaling, as in `add_(1 - beta1, grad)`). -/
noncomputable def tScale (c : ℝ) (a : Tensor) : Tensor := a.map (fun x => c * x)

/-- Elementwise tensor addition. -/
noncomputable def tAdd (a b : Tensor) : Tensor := List.zipWith (· + ·) a b

/-- Elementwise tensor multiplication (`addcmul_`'s product). -/
noncomputable def tMul (a b : Tensor) : Tensor := List.zipWith (· * ·) a b

/-- Elementwise tensor division (`addcdiv_`'s quotient). -/
noncomputable def tDiv (a b : Tensor) : Tensor := List.zipWith (· / ·) a b

/-- Elementwise `Tensor.sqrt`. -/
noncomputable def tSqrt (a : Tensor) : Tensor := a.map Real.sqrt

/-- `t.add_(c)` for a scalar `c` (as in `sqrt().add_(group['eps'])`). -/
noncomputable def tAddScalar (a : Tensor) (c : ℝ) : Tensor := a.map (fun x => x + c)

/-- One per-parameter slot of the shared optimizer: the parameter tensor
`p.data`, its gradient `p.grad` (`none` when unset), and the
`self.state[p]` entries `step`, `exp_avg`, `exp_avg_sq` created by
`SharedAdam.__init__` (lines 108-113). -/
structure TensorState where
  data : Tensor
  grad : Option Tensor
  step : ℕ
  exp_avg : Tensor
  exp_avg_sq : Tensor

/-- The parameter group's hyperparameters: `lr` from the constructor
(line 96), `betas = (0.9, 0.999)`, `eps = 1e-8` and `weight_decay = 0`
being the torch `Adam` defaults left untouched by `SharedAdam`. -/
structure AdamGroup where
  lr : ℝ
  beta1 : ℝ
  beta2 : ℝ
  eps : ℝ
  weight_decay : ℝ

/-- `SharedAdam.__init__` (lines 108-113): every parameter slot starts
with a zero step counter and zero-filled moment tensors shaped like the
parameter; no gradient is set. -/
def sharedAdamInit (params : List Tensor) : List TensorState :=
  params.map (fun d => ⟨d, none, 0, d.map (fun _ => 0), d.map (fun _ => 0)⟩)

/-- The body of the `for p in group['params']` loop of `SharedAdam.step`
(lines 139-164) for one parameter slot:

```python
if p.grad is None:
    continue
grad = p.grad.data
...
state['step'] += 1
if group['weight_decay'] != 0:
    grad = grad.add(group['weight_decay'], p.data)
exp_avg.mul_(beta1).add_(1 - beta1, grad)
exp_avg_sq.mul_(beta2).addcmul_(1 - beta2, grad, grad)
denom = exp_avg_sq.sqrt().add_(group['eps'])
bias_correction1 = 1 - beta1 ** state['step'].item()
bias_correction2 = 1 - beta2 ** state['step'].item()
step_size = group['lr'] * math.sqrt(bias_correction2) / bias_correction1
p.data.addcdiv_(-step_size, exp_avg, denom)
```

(`exp_avg_sq.sqrt()` allocates a fresh tensor, so `denom` does not mutate
the stored second moment.) -/
noncomputable def tensorApply (g : AdamGroup) (p : TensorState) : TensorState :=
  match p.grad with
  | none => p
  | some grad0 =>
      let grad := if g.weight_decay ≠ 0 then tAdd grad0 (tScale g.weight_decay p.data)
        else grad0
      let stepN := p.step + 1
      let exp_avg := tAdd (tScale g.beta1 p.exp_avg) (tScale (1 - g.beta1) grad)
      let exp_avg_sq := tAdd (tScale g.beta2 p.exp_avg_sq)
        (tScale (1 - g.beta2) (tMul grad grad))
      let denom := tAddScalar (tSqrt exp_avg_sq) g.eps
      let bias_correction1 := 1 - g.beta1 ^ stepN
      let bias_correction2 := 1 - g.beta2 ^ stepN
      let step_size := g.lr * Real.sqrt bias_correction2 / bias_correction1
      ⟨tAdd p.data (tScale (-step_size) (tDiv exp_avg denom)), p.grad, stepN,
        exp_avg, exp_avg_sq⟩

/-- `SharedAdam.step` (lines 126-166, `closure = None`): every slot is
processed independently by the loop body. -/
noncomputable def sharedAdamStep (g : AdamGroup) (ps : List TensorState) : List TensorState :=
  ps.map (tensorApply g)

/-- The gradient hand-over of `optimize_model` (lines 258-259):
`for lp, gp in zip(self.net.parameters(), self.global_net.parameters()):
gp._grad = lp.grad` — each shared slot receives the local gradient at its
position (`zip` truncates at the shorter list; slots beyond it keep their
gradient). -/
def setGrads : List TensorState → List (Option Tensor) → List TensorState
  | [], _ => []
  | ps, [] => ps
  | p :: ps, gr :: gs => ⟨p.data, gr, p.step, p.exp_avg, p.exp_avg_sq⟩ :: setGrads ps gs

/-- Default slot for out-of-range `List.getD` reads. -/
def dummyTS : TensorState := ⟨[], none, 0, [], []⟩

theorem setGrads_length : ∀ (ps : List TensorState) (gs : List (Option Tensor)),
    (setGrads ps gs).length = ps.length
  | [], _ => by simp [setGrads]
  | _ :: _, [] => by simp [setGrads]
  | _ :: ps, _ :: gs => by simp [setGrads, setGrads_length ps gs]

theorem setGrads_getD : ∀ (ps : List TensorState) (gs : List (Option Tensor)) (i : ℕ),
    i < ps.length → i < gs.length →
    (setGrads ps gs).getD i dummyTS
      = ⟨(ps.getD i dummyTS).data, gs.getD i none, (ps.getD i dummyTS).step,
         (ps.getD i dummyTS).exp_avg, (ps.getD i dummyTS).exp_avg_sq⟩
  | _ :: _, _ :: _, 0, _, _ => rfl
  | _ :: ps, _ :: gs, i + 1, h1, h2 => by
      simp only [setGrads, List.getD_cons_succ]
      exact setGrads_getD ps gs i (by simpa using h1) (by simpa using h2)
  | [], _, _, h1, _ => absurd h1 (by simp)
  | _ :: _, [], _, _, h2 => absurd h2 (by simp)

theorem sharedAdamStep_getD (g : AdamGroup) (ps : List TensorState) (i : ℕ)
    (hi : i < ps.length) :
    (sharedAdamStep g ps).getD i dummyTS = tensorApply g (ps.getD i dummyTS) := by
  induction ps generalizing i with
  | nil => simp at hi
  | cons p ps ih =>
      cases i with
      | zero => rfl
      | succ n =>
          have hn : n < ps.length := by simpa using hi
          exact ih n hn

/-- **C10** (confirmed): `SharedAdam.step` skips every parameter slot
whose gradient is absent (`if p.grad is None: continue`, lines 140-141)
without error: that slot — parameter values, both moment estimates and
its step counter — is unchanged by the call. -/
theorem sharedAdam_skips_gradless (g : AdamGroup) (ps : List TensorState) (i : ℕ)
    (hi : i < ps.length) (hg : (ps.getD i dummyTS).grad = none) :
    (sharedAdamStep g ps).getD i dummyTS = ps.getD i dummyTS := by
  rw [sharedAdamStep_getD g ps i hi]
  unfold tensorApply
  rw [hg]

/-- Witness for `sharedAdam_skips_gradless`: one slot, no gradient. -/
theorem sharedAdam_skips_gradless_witness :
    (sharedAdamStep ⟨1/100, 9/10, 999/1000, 1/10^8, 0⟩
        [⟨[1], none, 0, [0], [0]⟩]).getD 0 dummyTS
      = ([⟨[1], none, 0, [0], [0]⟩] : List TensorState).getD 0 dummyTS :=
  sharedAdam_skips_gradless ⟨1/100, 9/10, 999/1000, 1/10^8, 0⟩
    [⟨[1], none, 0, [0], [0]⟩] 0 (by simp) rfl

/-- The hyperparameters used by the concrete optimizer runs below:
`lr = 0.01` and the torch defaults. -/
noncomputable def hpW : AdamGroup := ⟨1/100, 9/10, 999/1000, 1/10^8, 0⟩

/-- Two one-entry parameter slots; in the first apply call only slot 0
has a gradient. -/
noncomputable def adamRun0 : List TensorState :=
  [⟨[1], some [1], 0, [0], [0]⟩, ⟨[1], none, 0, [0], [0]⟩]

/-- State after the first apply call. -/
noncomputable def adamRun1 : List TensorState := sharedAdamStep hpW adamRun0

/-- State after a second apply call in which both slots have gradients. -/
noncomputable def adamRun2 : List TensorState :=
  sharedAdamStep hpW (setGrads adamRun1 [some [1], some [1]])

/-- **C1**, counterexample: after an apply call touching only slot 0 and
a second apply call touching both slots, the stored bias-correction
counters (`state['step']`, the `t` used by the very call that stored
them) are `2` for slot 0 and `1` for slot 1.  Two tensors touched by the
same apply call were bias-corrected with different `t`, and no single
call-count `t` shared across tensors exists — the counter is kept per
tensor, contradicting the claim. -/
theorem sharedAdam_counter_not_global :
    ((adamRun2.getD 0 dummyTS).step = 2 ∧ (adamRun2.getD 1 dummyTS).step = 1)
      ∧ (adamRun2.getD 0 dummyTS).step ≠ (adamRun2.getD 1 dummyTS).step := by
  have h0 : (adamRun2.getD 0 dummyTS).step = 2 := by
    simp [adamRun2, adamRun1, adamRun0, sharedAdamStep, setGrads, tensorApply, hpW]
  have h1 : (adamRun2.getD 1 dummyTS).step = 1 := by
    simp [adamRun2, adamRun1, adamRun0, sharedAdamStep, setGrads, tensorApply, hpW]
  exact ⟨⟨h0, h1⟩, by rw [h0, h1]; omega⟩

/-- **C1** (amended): `SharedAdam.step` treats the slots independently,
and each slot keeps its *own* step counter: an apply call increments the
counter of every slot whose gradient is present, and that slot's update
uses the bias-corrected step size
`lr * sqrt(1 - beta2 ^ t) / (1 - beta1 ^ t)` computed from the slot's own
new counter value `t` — not from a counter shared across tensors. -/
theorem sharedAdam_per_tensor_counter (g : AdamGroup) (ps : List TensorState)
    (i : ℕ) (gr : Tensor) (hi : i < ps.length)
    (hg : (ps.getD i dummyTS).grad = some gr) :
    (sharedAdamStep g ps).getD i dummyTS = tensorApply g (ps.getD i dummyTS)
      ∧ (sharedAdamStep g ps).getD i dummyTS
        = (let p := ps.getD i dummyTS
           let grad := if g.weight_decay ≠ 0 then tAdd gr (tScale g.weight_decay p.data)
             else gr
           let t := p.step + 1
           let exp_avg := tAdd (tScale g.beta1 p.exp_avg) (tScale (1 - g.beta1) grad)
           let exp_avg_sq := tAdd (tScale g.beta2 p.exp_avg_sq)
             (tScale (1 - g.beta2) (tMul grad grad))
           let denom := tAddScalar (tSqrt exp_avg_sq) g.eps
           let step_size := g.lr * Real.sqrt (1 - g.beta2 ^ t) / (1 - g.beta1 ^ t)
           ⟨tAdd p.data (tScale (-step_size) (tDiv exp_avg denom)), some gr, t,
             exp_avg, exp_avg_sq⟩) := by
  refine ⟨sharedAdamStep_getD g ps i hi, ?_⟩
  rw [sharedAdamStep_getD g ps i hi]
  unfold tensorApply
  rw [hg]

/-- Witness for `sharedAdam_per_tensor_counter`: one slot with gradient
`[2]` and counter `0`; the update uses `t = 1`. -/
theorem sharedAdam_per_tensor_counter_witness :
    (sharedAdamStep hpW [⟨[1], some [2], 0, [0], [0]⟩]).getD 0 dummyTS
        = tensorApply hpW (([⟨[1], some [2], 0, [0], [0]⟩] : List TensorState).getD 0 dummyTS)
      ∧ (sharedAdamStep hpW [⟨[1], some [2], 0, [0], [0]⟩]).getD 0 dummyTS
        = (let p := ([⟨[1], some [2], 0, [0], [0]⟩] : List TensorState).getD 0 dummyTS
           let grad := if hpW.weight_decay ≠ 0
             then tAdd [2] (tScale hpW.weight_decay p.data) else [2]
           let t := p.step + 1
           let exp_avg := tAdd (tScale hpW.beta1 p.exp_avg) (tScale (1 - hpW.beta1) grad)
           let exp_avg_sq := tAdd (tScale hpW.beta2 p.exp_avg_sq)
             (tScale (1 - hpW.beta2) (tMul grad grad))
           let denom := tAddScalar (tSqrt exp_avg_sq) hpW.eps
           let step_size := hpW.lr * Real.sqrt (1 - hpW.beta2 ^ t) / (1 - hpW.beta1 ^ t)
           ⟨tAdd p.data (tScale (-step_size) (tDiv exp_avg denom)), some [2], t,
             exp_avg, exp_avg_sq⟩) :=
  sharedAdam_per_tensor_counter hpW [⟨[1], some [2], 0, [0], [0]⟩] 0 [2] (by simp) rfl

/-! ## Absence of a non-finite-loss guard in `optimize_model`
(lines 252-260)

The loss produced by the loop is a torch float; the embedding gives it a
float value type distinguishing finite values from `nan`/`inf`.  Lines
254-260 —

```python
self.shared_opt.zero_grad()
loss.backward()
torch.nn.utils.clip_grad_norm_(self.net.parameters(), cfg.MAX_GRAD_NORM)
for lp, gp in zip(self.net.parameters(), self.global_net.parameters()):
    gp._grad = lp.grad
self.shared_opt.step()
```

— hand the local gradients (produced by the backward pass and clipping,
outside the embedded fragment: parameter `grads`) to the shared slots and
apply the shared step.  No statement of the source inspects the loss
value: there is no finiteness check and no skip. -/

/-- A Python/torch float scalar: finite, or one of the non-finite values. -/
inductive FloatVal
  | finite (q : ℚ)
  | nan
  | posInf
  | negInf
deriving DecidableEq

/-- `math.isfinite` / torch `isfinite` on a scalar. -/
def FloatVal.isFinite : FloatVal → Bool
  | .finite _ => true
  | _ => false

/-- Lines 254-260 of `optimize_model` as one operation on the shared
optimizer state: install the cycle's gradients into the shared slots and
perform the shared Adam step.  The loss is received exactly as in the
source — which contains no finiteness test — so no branch inspects it. -/
noncomputable def applyGradientsCycle (loss : FloatVal) (grads : List (Option Tensor))
    (g : AdamGroup) (shared : List TensorState) : List TensorState :=
  let _ := loss
  sharedAdamStep g (setGrads shared grads)

/-- The shared state before the non-finite-loss cycle below. -/
noncomputable def sharedW : List TensorState := [⟨[1], none, 0, [0], [0]⟩]

/-- **C7**, counterexample: a cycle whose loss is `nan` (non-finite)
still applies the gradients — the slot's step counter moves from `0` to
`1`, so the shared optimizer state after the cycle differs from the state
before it. -/
theorem nonfinite_loss_still_applied :
    FloatVal.isFinite FloatVal.nan = false
      ∧ ((applyGradientsCycle FloatVal.nan [some [1]] hpW sharedW).getD 0 dummyTS).step = 1
      ∧ (sharedW.getD 0 dummyTS).step = 0
      ∧ applyGradientsCycle FloatVal.nan [some [1]] hpW sharedW ≠ sharedW := by
  have h1 : ((applyGradientsCycle FloatVal.nan [some [1]] hpW sharedW).getD 0 dummyTS).step = 1 := by
    simp [applyGradientsCycle, sharedW, sharedAdamStep, setGrads, tensorApply, hpW]
  have h0 : (sharedW.getD 0 dummyTS).step = 0 := rfl
  refine ⟨rfl, h1, h0, ?_⟩
  intro heq
  have hsteps := congrArg (fun l => (l.getD 0 dummyTS).step) heq
  simp only at hsteps
  rw [h1, h0] at hsteps
  omega

/-- **C7** (amended): `optimize_model` contains no finiteness check: the
effect of the gradient-application fragment on the shared optimizer state
is the same for *every* loss value (finite or not) — the apply is never
skipped — and a cycle whose gradient for a slot is present increments
that slot's step counter regardless of the loss. -/
theorem apply_gradients_ignores_loss (loss loss' : FloatVal)
    (grads : List (Option Tensor)) (g : AdamGroup) (shared : List TensorState)
    (i : ℕ) (gr : Tensor) (hi : i < shared.length) (hil : i < grads.length)
    (hg : grads.getD i none = some gr) :
    applyGradientsCycle loss grads g shared = applyGradientsCycle loss' grads g shared
      ∧ ((applyGradientsCycle loss grads g shared).getD 0 dummyTS).step
        = ((applyGradientsCycle loss' grads g shared).getD 0 dummyTS).step
      ∧ ((applyGradientsCycle loss grads g shared).getD i dummyTS).step
        = (shared.getD i dummyTS).step + 1 := by
  refine ⟨rfl, rfl, ?_⟩
  have hlen : i < (setGrads shared grads).length := by
    rw [setGrads_length]; exact hi
  show ((sharedAdamStep g (setGrads shared grads)).getD i dummyTS).step
    = (shared.getD i dummyTS).step + 1
  rw [sharedAdamStep_getD g _ i hlen, setGrads_getD shared grads i hi hil]
  unfold tensorApply
  rw [hg]

/-- Witness for `apply_gradients_ignores_loss`: `nan` versus a finite
loss on the same cycle; the slot's counter increments either way. -/
theorem apply_gradients_ignores_loss_witness :
    applyGradientsCycle FloatVal.nan [some [1]] hpW [⟨[1], none, 0, [0], [0]⟩]
        = applyGradientsCycle (FloatVal.finite 0) [some [1]] hpW [⟨[1], none, 0, [0], [0]⟩]
      ∧ ((applyGradientsCycle FloatVal.nan [some [1]] hpW [⟨[1], none, 0, [0], [0]⟩]).getD 0 dummyTS).step
        = ((applyGradientsCycle (FloatVal.finite 0) [some [1]] hpW [⟨[1], none, 0, [0], [0]⟩]).getD 0 dummyTS).step
      ∧ ((applyGradientsCycle FloatVal.nan [some [1]] hpW [⟨[1], none, 0, [0], [0]⟩]).getD 0 dummyTS).step
        = (([⟨[1], none, 0, [0], [0]⟩] : List TensorState).getD 0 dummyTS).step + 1 :=
  apply_gradients_ignores_loss FloatVal.nan (FloatVal.finite 0) [some [1]] hpW
    [⟨[1], none, 0, [0], [0]⟩] 0 [1] (by simp) (by simp) rfl

end A3C
